import Mathlib

/-!
Shallow embedding of the `sat_lab` Rust crate (src/literal.rs, src/clause.rs,
src/instance.rs), used to check the natural-language specification against the
code. Strings are modelled as `List Char`; the file-system layer of
`Instance::from_file` / `Instance::to_file` is abstracted to the file's text
content. Machine integers: `isize` values are `Int` with the 64-bit bounds made
explicit where overflow or underflow matters; a debug-build panic (overflow of
`-`/`abs`, underflow of `usize` subtraction, `Option::unwrap` on `None`,
a failed `assert!`) is modelled as `Option.none`.
-/

namespace SatLab

/-- `usize::MAX` on a 64-bit target. -/
def usizeMax : Nat := 2 ^ 64 - 1

/-- `isize::MAX` on a 64-bit target, as a natural number. -/
def isizeMaxNat : Nat := 2 ^ 63 - 1

/-- `isize::MAX` on a 64-bit target. -/
def isizeMax : Int := 2 ^ 63 - 1

/-- `isize::MIN` on a 64-bit target. -/
def isizeMin : Int := -(2 ^ 63)

/-- Whitespace as used by Rust `str::trim` / `split_whitespace`
(restricted to the ASCII whitespace characters, the only ones relevant here). -/
def isWs (c : Char) : Bool := c = ' ' || c = '\t' || c = '\n' || c = '\r'

/-- Leading-whitespace strip, first half of Rust `str::trim`. -/
def trimLeft (cs : List Char) : List Char := cs.dropWhile isWs

/-- Trailing-whitespace strip, second half of Rust `str::trim`. -/
def trimRight (cs : List Char) : List Char := (cs.reverse.dropWhile isWs).reverse

/-- Rust `str::trim` on the character list. -/
def trimChars (cs : List Char) : List Char := trimRight (trimLeft cs)

/-- Split a character list at every newline; the resulting chunk list is
always nonempty (`n` newlines give `n+1` chunks). -/
def splitOnNl : List Char → List (List Char)
  | [] => [[]]
  | c :: rest =>
    if c = '\n' then [] :: splitOnNl rest
    else
      match splitOnNl rest with
      | [] => [[c]]
      | l :: ls => (c :: l) :: ls

/-- Strip one trailing carriage return, as Rust `str::lines` does for
lines terminated by `\r\n`. -/
def stripCr (cs : List Char) : List Char :=
  if cs.getLast? = some '\r' then cs.dropLast else cs

/-- Rust `str::lines`: line-terminator semantics (a trailing newline does not
produce a final empty line; the empty string has no lines). -/
def rustLines (cs : List Char) : List (List Char) :=
  if cs = [] then []
  else
    let parts := splitOnNl cs
    let parts := if cs.getLast? = some '\n' then parts.dropLast else parts
    parts.map stripCr

/-- Worker for `splitWs`; `acc` is the current token, reversed. -/
def splitWsAux : List Char → List Char → List (List Char)
  | [], acc => if acc = [] then [] else [acc.reverse]
  | c :: rest, acc =>
    if isWs c then
      if acc = [] then splitWsAux rest []
      else acc.reverse :: splitWsAux rest []
    else splitWsAux rest (c :: acc)

/-- Rust `str::split_whitespace`: maximal non-whitespace runs, no empty
tokens. -/
def splitWs (cs : List Char) : List (List Char) := splitWsAux cs []

/-- `char::to_digit(10)`: the value of an ASCII decimal digit. -/
def digitVal? (c : Char) : Option Nat :=
  if 48 ≤ c.toNat ∧ c.toNat ≤ 57 then some (c.toNat - 48) else none

/-- Accumulating decimal evaluation of a digit string, as in integer
`from_str`; fails on the first non-digit. -/
def goDigits : Nat → List Char → Option Nat
  | acc, [] => some acc
  | acc, c :: rest =>
    match digitVal? c with
    | none => none
    | some d => goDigits (acc * 10 + d) rest

/-- A nonempty all-digit string evaluated as a natural number. -/
def parseDigits (cs : List Char) : Option Nat :=
  if cs = [] then none else goDigits 0 cs

/-- Rust `usize::from_str` (`"<m>".parse::<usize>()`): optional leading `+`,
then one or more decimal digits; overflow past `usize::MAX` is an error. -/
def parseUsize (cs : List Char) : Option Nat :=
  let ds := if cs.head? = some '+' then cs.tail else cs
  match parseDigits ds with
  | none => none
  | some v => if v ≤ usizeMax then some v else none

/-- Rust `isize::from_str` (`x.parse::<isize>()` in `from_file`): optional
leading `+` or `-`, then one or more decimal digits; out-of-range magnitudes
are errors. -/
def parseIsize (cs : List Char) : Option Int :=
  if cs.head? = some '-' then
    match parseDigits cs.tail with
    | none => none
    | some v => if (v : Int) ≤ 2 ^ 63 then some (-(v : Int)) else none
  else
    let ds := if cs.head? = some '+' then cs.tail else cs
    match parseDigits ds with
    | none => none
    | some v => if (v : Int) ≤ 2 ^ 63 - 1 then some (v : Int) else none

/-- The ASCII digit character for `d < 10`. -/
def digitChar (d : Nat) : Char := Char.ofNat (48 + d)

/-- Decimal printing of a natural number, as Rust `Display` for unsigned
integers (`write!("{}", n)`). -/
def natChars (n : Nat) : List Char :=
  if _h : n < 10 then [digitChar n]
  else natChars (n / 10) ++ [digitChar (n % 10)]
  termination_by n
  decreasing_by exact Nat.div_lt_self (by omega) (by omega)

/-- Decimal printing of a signed integer, as Rust `Display` for `isize`. -/
def intChars (v : Int) : List Char :=
  if v < 0 then '-' :: natChars v.natAbs else natChars v.natAbs

/-! ## The data model: `Literal`, `Clause`, `Instance` (src/literal.rs,
src/clause.rs, src/instance.rs)

`BoolVec` (the external boolean-vector container) is modelled as `List Bool`,
with `get` as `List.get?` and `len` as `List.length`. -/

/-- src/literal.rs: `pub struct Literal(isize);`. -/
structure Literal where
  cnf : Int
deriving DecidableEq, Repr

namespace Literal

/-- src/literal.rs `Literal::new`:
`assert!(var_index < isize::MAX as usize); let v = var_index as isize + 1;
Self(if negated { -v } else { v })`. The failed assertion is `none`. -/
def new (var_index : Nat) (negated : Bool) : Option Literal :=
  if var_index < isizeMaxNat then
    some ⟨if negated then -((var_index : Int) + 1) else (var_index : Int) + 1⟩
  else none

/-- src/literal.rs `Literal::from_cnf`: wraps the raw value, no validation. -/
def from_cnf (v : Int) : Literal := ⟨v⟩

/-- src/literal.rs `Literal::as_cnf`. -/
def as_cnf (l : Literal) : Int := l.cnf

/-- src/literal.rs `Literal::index`: `self.0.abs() as usize - 1`.
In a debug build `abs()` panics on `isize::MIN` and the `usize`
subtraction panics on magnitude `0`; both are modelled as `none`. -/
def index (l : Literal) : Option Nat :=
  if l.cnf = isizeMin then none
  else if l.cnf.natAbs = 0 then none
  else some (l.cnf.natAbs - 1)

/-- src/literal.rs `Literal::is_negated`: `self.0.is_negative()`. -/
def is_negated (l : Literal) : Bool := l.cnf < 0

/-- src/literal.rs `Literal::negated`: `Self::from_cnf(-self.0)`.
In a debug build the negation panics on `isize::MIN` (modelled as `none`). -/
def negated (l : Literal) : Option Literal :=
  if l.cnf = isizeMin then none else some ⟨-l.cnf⟩

/-- src/literal.rs `Literal::try_eval_with`:
`vars.get(self.index()).map(|v| v ^ self.is_negated())`. The outer `Option`
is the debug panic inside `index()`; the inner one is `BoolVec::get`'s
out-of-range `None`. -/
def try_eval_with (l : Literal) (vars : List Bool) : Option (Option Bool) :=
  l.index.map (fun i => (vars.get? i).map (fun v => Bool.xor v l.is_negated))

/-- src/literal.rs `Literal::eval_with`: `self.try_eval_with(vars).unwrap()`;
`unwrap` of `None` panics, so any failure collapses to `none`. -/
def eval_with (l : Literal) (vars : List Bool) : Option Bool :=
  (l.try_eval_with vars).bind id

end Literal

/-- src/clause.rs: `pub struct Clause(Vec<Literal>);`. -/
structure Clause where
  lits : List Literal
deriving DecidableEq, Repr

namespace Clause

/-- `self.iter_eval(vars).any(|x| x)` with `Iterator::any`'s short-circuit:
literals are evaluated left to right, stopping at the first `true`; a literal
whose `eval_with` panics before that point aborts the whole computation
(`none`), and literals after the first `true` are never evaluated. -/
def test_satGo (vars : List Bool) : List Literal → Option Bool
  | [] => some false
  | l :: rest =>
    match l.eval_with vars with
    | none => none
    | some true => some true
    | some false => test_satGo vars rest

/-- src/clause.rs `Clause::test_sat`: `self.iter_eval(vars).any(|x| x)`. -/
def test_sat (c : Clause) (vars : List Bool) : Option Bool :=
  test_satGo vars c.lits

/-- src/clause.rs `Clause::get_literals`. -/
def get_literals (c : Clause) : List Literal := c.lits

end Clause

/-- src/instance.rs: `pub struct Instance { pub vars: BoolVec, clauses: Vec<Clause> }`. -/
structure Instance where
  vars : List Bool
  clauses : List Clause
deriving DecidableEq, Repr

namespace Instance

/-- src/instance.rs `Instance::new`. -/
def new (vars : List Bool) (clauses : List Clause) : Instance := ⟨vars, clauses⟩

/-- src/instance.rs `Instance::with_clauses`: `boolvec![false; n]` plus the
given clauses. -/
def with_clauses (n : Nat) (clauses : List Clause) : Instance :=
  ⟨List.replicate n false, clauses⟩

/-- `self.clauses.iter().filter(|c| c.test_sat(&self.vars)).count()`:
every clause is evaluated in order; a clause whose `test_sat` panics aborts
the count (`none`). -/
def count_satGo (vars : List Bool) : List Clause → Option Nat
  | [] => some 0
  | c :: rest =>
    match c.test_sat vars with
    | none => none
    | some true => (count_satGo vars rest).map (· + 1)
    | some false => count_satGo vars rest

/-- src/instance.rs `Instance::count_sat`. -/
def count_sat (inst : Instance) : Option Nat :=
  count_satGo inst.vars inst.clauses

/-- src/instance.rs `Instance::is_sat`: `self.count_sat() == self.clauses.len()`. -/
def is_sat (inst : Instance) : Option Bool :=
  inst.count_sat.map (· == inst.clauses.length)

/-- src/instance.rs `Instance::sample_new_variables_with`: replaces `vars`
with `rng.sample_iter(Standard).take(self.vars.len())` and returns `&self.vars`.
The RNG is modelled as a stream of booleans; the returned reference is the
second component. -/
def sample_new_variables_with (inst : Instance) (rng : Nat → Bool) :
    Instance × List Bool :=
  let newVars := (List.range inst.vars.length).map rng
  (⟨newVars, inst.clauses⟩, newVars)

end Instance

/-! ## `Instance::from_file` / `Instance::to_file` (src/instance.rs) -/

/-- The inner `collect::<Result<Clause, _>>()` over parsed tokens: the first
`Err` (here `none`) aborts with an error. -/
def collectLits : List (Option Int) → Option (List Literal)
  | [] => some []
  | none :: _ => none
  | some v :: rest => (collectLits rest).map (Literal.from_cnf v :: ·)

/-- One clause line of `from_file`:
`clause.map(|x| x.parse()).take_while(|r| r.as_ref().map_or(false, |x| *x != 0))
.map(|r| r.map(Literal::from_cnf)).collect::<Result<Clause, _>>()`. -/
def parseClauseLine (line : List Char) : Option Clause :=
  (collectLits
      (((splitWs line).map parseIsize).takeWhile
        (fun r => r.elim false (fun x => x != 0)))).map Clause.mk

/-- The outer `collect::<Result<Vec<Clause>, _>>()` over the clause lines. -/
def collectClauses : List (Option Clause) → Option (List Clause)
  | [] => some []
  | none :: _ => none
  | some c :: rest => (collectClauses rest).map (c :: ·)

/-- src/instance.rs `Instance::from_file`, on the file's text content.
Mirrors the source line by line: trim the content, take lines, skip the
leading run of lines starting with `c`, read the first remaining line as the
header (its first whitespace token is skipped unchecked by `.skip(1)`; the
second must be `cnf`; the next two must parse as `usize`), then parse
`lines.take(m)` clause lines. Every `std::io::ErrorKind::InvalidInput`
error return is `none`. -/
def Instance.from_file (content : List Char) : Option Instance :=
  let ls := (rustLines (trimChars content)).dropWhile (fun l => l.head? = some 'c')
  match ls with
  | [] => none
  | header :: rest =>
    match (splitWs header).drop 1 with
    | [] => none
    | ptype :: params =>
      if ptype ≠ "cnf".data then none
      else
        match params with
        | [] => none
        | ntok :: params2 =>
          match parseUsize ntok with
          | none => none
          | some n =>
            match params2 with
            | [] => none
            | mtok :: _ =>
              match parseUsize mtok with
              | none => none
              | some m =>
                match collectClauses ((rest.take m).map parseClauseLine) with
                | none => none
                | some clauses => some ⟨List.replicate n false, clauses⟩

/-- One clause line as written by `to_file`: `write!("{} ", lit.as_cnf())`
for each literal, then `writeln!("0")` without its newline. -/
def clauseLineChars (c : Clause) : List Char :=
  (c.lits.map (fun l => intChars l.cnf ++ [' '])).flatten ++ ['0']

/-- src/instance.rs `Instance::to_file`, producing the file's text content:
`writeln!("p cnf {} {}", vars.len(), clauses.len())` then one terminated
clause line per clause. -/
def Instance.to_file (inst : Instance) : List Char :=
  "p cnf ".data ++ natChars inst.vars.length ++ [' ']
    ++ natChars inst.clauses.length ++ ['\n']
    ++ (inst.clauses.map (fun c => clauseLineChars c ++ ['\n'])).flatten

/-- A DIMACS header line with an arbitrary leading token `t`
(`to_file` always writes `t = "p"`). -/
def headerChars (t : List Char) (n m : Nat) : List Char :=
  t ++ [' '] ++ "cnf".data ++ [' '] ++ natChars n ++ [' '] ++ natChars m

/-- A whole DIMACS file: a header line then one terminated clause line per
clause, exactly the text `to_file` produces when `t = "p"`. -/
def mkContent (t : List Char) (n m : Nat) (cls : List Clause) : List Char :=
  headerChars t n m ++ ['\n'] ++ (cls.map (fun c => clauseLineChars c ++ ['\n'])).flatten

/-- An in-bounds literal for an assignment of length `n` (the spec's
"built purely from in-bounds Literals"): nonzero, representable as a
64-bit `isize`, and indexing a variable inside the assignment vector. -/
def Literal.in_bounds (l : Literal) (n : Nat) : Prop :=
  0 < l.cnf.natAbs ∧ l.cnf.natAbs ≤ isizeMaxNat ∧ l.cnf.natAbs - 1 < n

instance (l : Literal) (n : Nat) : Decidable (l.in_bounds n) := by
  rw [Literal.in_bounds]
  infer_instance

/-! ## Character-class and decimal round-trip lemmas -/

lemma digitVal_toNat {c : Char} {d : Nat} (h : digitVal? c = some d) :
    48 ≤ c.toNat ∧ c.toNat ≤ 57 := by
  by_cases hc : 48 ≤ c.toNat ∧ c.toNat ≤ 57
  · exact hc
  · simp [digitVal?, hc] at h

lemma isWs_false_of_digit {c : Char} {d : Nat} (h : digitVal? c = some d) :
    isWs c = false := by
  have hn := digitVal_toNat h
  rcases hw : isWs c with _ | _
  · rfl
  · exfalso
    have hcase : ((c = ' ' ∨ c = '\t') ∨ c = '\n') ∨ c = '\r' := by
      simpa [isWs] using hw
    rcases hcase with ((h1 | h1) | h1) | h1 <;> subst h1 <;>
      exact absurd hn (by decide)

lemma ne_of_digit {c x : Char} {d : Nat} (h : digitVal? c = some d)
    (hx : x.toNat < 48 ∨ 57 < x.toNat) : c ≠ x := by
  have hn := digitVal_toNat h
  intro he
  subst he
  omega

lemma digitVal_digitChar {d : Nat} (h : d < 10) :
    digitVal? (digitChar d) = some d := by
  interval_cases d <;> decide

lemma natChars_ne_nil (n : Nat) : natChars n ≠ [] := by
  rw [natChars]
  split <;> simp

lemma mem_natChars_digit (n : Nat) :
    ∀ c ∈ natChars n, ∃ d, d < 10 ∧ digitVal? c = some d := by
  induction n using Nat.strong_induction_on with
  | _ n ih =>
    intro c hc
    rw [natChars] at hc
    split at hc
    · next h =>
      simp only [List.mem_singleton] at hc
      subst hc
      exact ⟨n, h, digitVal_digitChar h⟩
    · next h =>
      rcases List.mem_append.mp hc with h1 | h1
      · exact ih (n / 10) (Nat.div_lt_self (by omega) (by omega)) c h1
      · simp only [List.mem_singleton] at h1
        subst h1
        exact ⟨n % 10, Nat.mod_lt _ (by omega), digitVal_digitChar (Nat.mod_lt _ (by omega))⟩

lemma goDigits_append (acc : Nat) (xs ys : List Char) :
    goDigits acc (xs ++ ys) = (goDigits acc xs).bind (fun a => goDigits a ys) := by
  induction xs generalizing acc with
  | nil => rfl
  | cons c rest ih =>
    simp only [List.cons_append, goDigits]
    cases digitVal? c with
    | none => rfl
    | some d => simp [ih]

lemma goDigits_natChars (n : Nat) :
    ∀ acc, goDigits acc (natChars n) = some (acc * 10 ^ (natChars n).length + n) := by
  induction n using Nat.strong_induction_on with
  | _ n ih =>
    intro acc
    rw [natChars]
    split
    · next h =>
      simp [goDigits, digitVal_digitChar h]
    · next h =>
      have hd10 : n % 10 < 10 := Nat.mod_lt _ (by omega)
      rw [goDigits_append, ih (n / 10) (Nat.div_lt_self (by omega) (by omega)) acc]
      show goDigits _ [digitChar (n % 10)] = _
      simp only [goDigits, digitVal_digitChar hd10, List.length_append,
        List.length_singleton, pow_succ]
      congr 1
      rw [← mul_assoc]
      generalize acc * 10 ^ (natChars (n / 10)).length = A
      omega

lemma parseDigits_natChars (n : Nat) : parseDigits (natChars n) = some n := by
  rw [parseDigits, if_neg (natChars_ne_nil n), goDigits_natChars]
  simp

lemma natChars_head_digit (n : Nat) :
    ∃ c cs, natChars n = c :: cs ∧ ∃ d, d < 10 ∧ digitVal? c = some d := by
  cases h : natChars n with
  | nil => exact absurd h (natChars_ne_nil n)
  | cons c cs =>
    refine ⟨c, cs, rfl, mem_natChars_digit n c ?_⟩
    rw [h]
    exact List.mem_cons_self _ _

lemma parseUsize_natChars {n : Nat} (hn : n ≤ usizeMax) :
    parseUsize (natChars n) = some n := by
  have hplus : (natChars n).head? ≠ some '+' := by
    obtain ⟨c, cs, hcons, d, _, hd⟩ := natChars_head_digit n
    rw [hcons]
    simpa using ne_of_digit hd (by decide)
  simp only [parseUsize, if_neg hplus, parseDigits_natChars]
  rw [if_pos hn]

lemma intChars_ne_nil (v : Int) : intChars v ≠ [] := by
  rw [intChars]
  split
  · simp
  · exact natChars_ne_nil _

lemma mem_intChars_not_ws (v : Int) : ∀ c ∈ intChars v, isWs c = false := by
  intro c hc
  rw [intChars] at hc
  split at hc
  · rcases List.mem_cons.mp hc with h1 | h1
    · subst h1; decide
    · obtain ⟨d, _, hd⟩ := mem_natChars_digit _ c h1
      exact isWs_false_of_digit hd
  · obtain ⟨d, _, hd⟩ := mem_natChars_digit _ c hc
    exact isWs_false_of_digit hd

lemma mem_natChars_not_ws (n : Nat) : ∀ c ∈ natChars n, isWs c = false := by
  intro c hc
  obtain ⟨d, _, hd⟩ := mem_natChars_digit _ c hc
  exact isWs_false_of_digit hd

lemma parseIsize_intChars {v : Int} (hv : v.natAbs ≤ isizeMaxNat) :
    parseIsize (intChars v) = some v := by
  have hv63 : v.natAbs ≤ 2 ^ 63 - 1 := hv
  by_cases hneg : v < 0
  · rw [intChars, if_pos hneg, parseIsize,
      if_pos (show (('-' :: natChars v.natAbs).head?) = some '-' by simp),
      List.tail_cons, parseDigits_natChars]
    show (if ((v.natAbs : Nat) : Int) ≤ 2 ^ 63 then _ else _) = _
    rw [if_pos (by omega)]
    congr 1
    omega
  · have hplus : (natChars v.natAbs).head? ≠ some '+' := by
      obtain ⟨c, cs, hcons, d, _, hd⟩ := natChars_head_digit v.natAbs
      rw [hcons]
      simpa using ne_of_digit hd (by decide)
    have hminus : (natChars v.natAbs).head? ≠ some '-' := by
      obtain ⟨c, cs, hcons, d, _, hd⟩ := natChars_head_digit v.natAbs
      rw [hcons]
      simpa using ne_of_digit hd (by decide)
    rw [intChars, if_neg hneg, parseIsize, if_neg hminus]
    simp only [if_neg hplus, parseDigits_natChars]
    show (if ((v.natAbs : Nat) : Int) ≤ 2 ^ 63 - 1 then _ else _) = _
    rw [if_pos (by omega)]
    congr 1
    omega

/-! ## Splitting and trimming lemmas -/

lemma splitWsAux_no_ws (a : List Char) (h : ∀ c ∈ a, isWs c = false) :
    ∀ rest acc, splitWsAux (a ++ rest) acc = splitWsAux rest (a.reverse ++ acc) := by
  induction a with
  | nil => intro rest acc; simp
  | cons c a ih =>
    intro rest acc
    have hc : isWs c = false := h c (List.mem_cons_self _ _)
    simp only [List.cons_append, splitWsAux, hc, Bool.false_eq_true, if_false,
      List.append_eq]
    rw [ih (fun x hx => h x (List.mem_cons_of_mem _ hx)) rest (c :: acc)]
    simp

lemma splitWs_append_space (a b : List Char) (ha : a ≠ [])
    (hw : ∀ c ∈ a, isWs c = false) :
    splitWs (a ++ ' ' :: b) = a :: splitWs b := by
  rw [splitWs, splitWsAux_no_ws a hw (' ' :: b) []]
  have hrev : a.reverse ≠ [] := by simpa using ha
  simp [splitWsAux, isWs, hrev, splitWs]

lemma splitWs_single (a : List Char) (ha : a ≠ [])
    (hw : ∀ c ∈ a, isWs c = false) : splitWs a = [a] := by
  have := splitWsAux_no_ws a hw [] []
  rw [List.append_nil] at this
  rw [splitWs, this]
  have hrev : a.reverse ≠ [] := by simpa using ha
  simp [splitWsAux, hrev]

lemma splitOnNl_append (a b : List Char) (h : '\n' ∉ a) :
    splitOnNl (a ++ '\n' :: b) = a :: splitOnNl b := by
  induction a with
  | nil => simp [splitOnNl]
  | cons c a ih =>
    have hc : c ≠ '\n' := fun he => h (he ▸ List.mem_cons_self _ _)
    simp only [List.cons_append, splitOnNl, hc, if_false, List.append_eq]
    rw [ih (fun hm => h (List.mem_cons_of_mem _ hm))]

lemma splitOnNl_no_nl (a : List Char) (h : '\n' ∉ a) : splitOnNl a = [a] := by
  induction a with
  | nil => rfl
  | cons c a ih =>
    have hc : c ≠ '\n' := fun he => h (he ▸ List.mem_cons_self _ _)
    simp only [splitOnNl, hc, if_false]
    rw [ih (fun hm => h (List.mem_cons_of_mem _ hm))]

lemma splitOnNl_flatten (a : List Char) (ls : List (List Char))
    (ha : '\n' ∉ a) (hls : ∀ l ∈ ls, '\n' ∉ l) :
    splitOnNl (a ++ (ls.map (fun l => '\n' :: l)).flatten) = a :: ls := by
  induction ls generalizing a with
  | nil => simpa using splitOnNl_no_nl a ha
  | cons l ls ih =>
    simp only [List.map_cons, List.flatten_cons, List.cons_append]
    rw [splitOnNl_append _ _ ha,
      ih l (hls l (List.mem_cons_self _ _)) (fun x hx => hls x (List.mem_cons_of_mem _ hx))]

lemma takeWhile_all_append {α : Type} {p : α → Bool} (xs : List α) (y : α) (ys : List α)
    (hx : ∀ x ∈ xs, p x = true) (hy : p y = false) :
    (xs ++ y :: ys).takeWhile p = xs := by
  induction xs with
  | nil => simp [List.takeWhile_cons, hy]
  | cons x xs ih =>
    simp only [List.cons_append, List.takeWhile_cons, hx x (List.mem_cons_self _ _),
      if_true]
    rw [ih (fun z hz => hx z (List.mem_cons_of_mem _ hz))]

lemma collectLits_map_some (vs : List Int) :
    collectLits (vs.map some) = some (vs.map Literal.from_cnf) := by
  induction vs with
  | nil => rfl
  | cons v vs ih => simp [collectLits, ih]

lemma collectClauses_map_some (cs : List Clause) :
    collectClauses (cs.map some) = some cs := by
  induction cs with
  | nil => rfl
  | cons c cs ih => simp [collectClauses, ih]

lemma trimLeft_cons {c : Char} (cs : List Char) (hc : isWs c = false) :
    trimLeft (c :: cs) = c :: cs := by
  simp [trimLeft, List.dropWhile_cons, hc]

lemma trimRight_append_nl (x : List Char) : trimRight (x ++ ['\n']) = trimRight x := by
  simp [trimRight, List.reverse_append, List.dropWhile_cons, isWs]

lemma trimRight_no_ws_end {cs : List Char} {c : Char}
    (h : cs.getLast? = some c) (hc : isWs c = false) : trimRight cs = cs := by
  cases hrev : cs.reverse with
  | nil =>
    have : cs = [] := by simpa using congrArg List.reverse hrev
    subst this
    simp at h
  | cons d tl =>
    have hd : d = c := by
      have := List.head?_reverse cs
      rw [hrev] at this
      simp only [List.head?_cons] at this
      rw [h] at this
      exact (Option.some.injEq _ _ ▸ this)
    subst hd
    rw [trimRight, hrev, List.dropWhile_cons, if_neg (by simp [hc]), ← hrev,
      List.reverse_reverse]

lemma stripCr_no_cr {cs : List Char} {c : Char}
    (h : cs.getLast? = some c) (hc : c ≠ '\r') : stripCr cs = cs := by
  rw [stripCr, if_neg]
  rw [h]
  simpa using hc

/-! ## Shape of a written DIMACS file -/

lemma to_file_eq_mkContent (inst : Instance) :
    inst.to_file = mkContent ['p'] inst.vars.length inst.clauses.length inst.clauses := by
  rw [Instance.to_file, mkContent, headerChars]
  simp [List.append_assoc]

lemma nl_flatten (cls : List Clause) :
    '\n' :: (cls.map (fun c => clauseLineChars c ++ ['\n'])).flatten
      = (cls.map (fun c => '\n' :: clauseLineChars c)).flatten ++ ['\n'] := by
  induction cls with
  | nil => rfl
  | cons c cls ih =>
    have h1 : '\n' :: ((clauseLineChars c ++ ['\n'])
        ++ (cls.map (fun c => clauseLineChars c ++ ['\n'])).flatten)
        = ('\n' :: clauseLineChars c)
          ++ ('\n' :: (cls.map (fun c => clauseLineChars c ++ ['\n'])).flatten) := by
      simp
    simp only [List.map_cons, List.flatten_cons]
    rw [h1, ih]
    simp

lemma mkContent_shape (t : List Char) (n m : Nat) (cls : List Clause) :
    mkContent t n m cls
      = (headerChars t n m
          ++ (cls.map (fun c => '\n' :: clauseLineChars c)).flatten) ++ ['\n'] := by
  rw [mkContent, List.append_assoc, List.append_assoc]
  congr 1
  rw [List.singleton_append]
  exact nl_flatten cls

lemma mem_intChars_cases {v : Int} {c : Char} (h : c ∈ intChars v) :
    c = '-' ∨ ∃ d, d < 10 ∧ digitVal? c = some d := by
  rw [intChars] at h
  split at h
  · rcases List.mem_cons.mp h with h1 | h1
    · exact Or.inl h1
    · exact Or.inr (mem_natChars_digit _ c h1)
  · exact Or.inr (mem_natChars_digit _ c h)

lemma mem_clauseLineChars (c : Clause) {x : Char} (h : x ∈ clauseLineChars c) :
    x = '-' ∨ x = ' ' ∨ ∃ d, d < 10 ∧ digitVal? x = some d := by
  rw [clauseLineChars] at h
  rcases List.mem_append.mp h with h1 | h1
  · obtain ⟨piece, hp, hx⟩ := List.mem_flatten.mp h1
    obtain ⟨l, _, rfl⟩ := List.mem_map.mp hp
    rcases List.mem_append.mp hx with h2 | h2
    · rcases mem_intChars_cases h2 with h3 | h3
      · exact Or.inl h3
      · exact Or.inr (Or.inr h3)
    · simp only [List.mem_singleton] at h2
      exact Or.inr (Or.inl h2)
  · simp only [List.mem_singleton] at h1
    subst h1
    exact Or.inr (Or.inr ⟨0, by omega, by decide⟩)

lemma not_nl_mem_clauseLineChars (c : Clause) : '\n' ∉ clauseLineChars c := by
  intro h
  have hnone : digitVal? '\n' = none := by decide
  rcases mem_clauseLineChars c h with h1 | h1 | ⟨d, _, hd⟩
  · exact absurd h1 (by decide)
  · exact absurd h1 (by decide)
  · rw [hnone] at hd
    cases hd

lemma mem_headerChars (t : List Char) (n m : Nat) {x : Char}
    (h : x ∈ headerChars t n m) :
    x ∈ t ∨ x = ' ' ∨ x ∈ "cnf".data ∨ ∃ d, d < 10 ∧ digitVal? x = some d := by
  rw [headerChars] at h
  simp only [List.append_assoc, List.mem_append, List.mem_singleton] at h
  rcases h with h | h | h | h | h | h | h
  · exact Or.inl h
  · exact Or.inr (Or.inl h)
  · exact Or.inr (Or.inr (Or.inl h))
  · exact Or.inr (Or.inl h)
  · exact Or.inr (Or.inr (Or.inr (mem_natChars_digit _ _ h)))
  · exact Or.inr (Or.inl h)
  · exact Or.inr (Or.inr (Or.inr (mem_natChars_digit _ _ h)))

lemma not_nl_mem_headerChars (t : List Char) (htw : ∀ c ∈ t, isWs c = false)
    (n m : Nat) : '\n' ∉ headerChars t n m := by
  intro h
  have hnone : digitVal? '\n' = none := by decide
  rcases mem_headerChars t n m h with h1 | h1 | h1 | ⟨d, _, hd⟩
  · exact absurd (htw _ h1) (by decide)
  · exact absurd h1 (by decide)
  · exact absurd h1 (by decide)
  · rw [hnone] at hd
    cases hd

lemma getLast?_clauseLineChars (c : Clause) :
    (clauseLineChars c).getLast? = some '0' := by
  rw [clauseLineChars]
  exact List.getLast?_concat _

lemma getLast?_flatten_lines (cls : List Clause) (h : cls ≠ []) :
    ((cls.map (fun c => '\n' :: clauseLineChars c)).flatten).getLast? = some '0' := by
  induction cls with
  | nil => exact absurd rfl h
  | cons c cls ih =>
    simp only [List.map_cons, List.flatten_cons]
    rw [List.getLast?_append]
    cases cls with
    | nil =>
      simp only [List.map_nil, List.flatten_nil, List.getLast?_nil, Option.none_or]
      rw [show ('\n' :: clauseLineChars c) = ['\n'] ++ clauseLineChars c from rfl,
        List.getLast?_append, getLast?_clauseLineChars]
      rfl
    | cons c2 cls2 =>
      rw [ih (by simp)]
      rfl

lemma getLast?_headerChars (t : List Char) (n m : Nat) :
    ∃ x, (headerChars t n m).getLast? = some x ∧ ∃ d, d < 10 ∧ digitVal? x = some d := by
  have hx : (natChars m).getLast? = some ((natChars m).getLast (natChars_ne_nil m)) :=
    List.getLast?_eq_getLast _ _
  refine ⟨_, ?_, mem_natChars_digit m _ (List.mem_of_getLast?_eq_some hx)⟩
  rw [headerChars, List.getLast?_append, hx]
  rfl

lemma trimChars_mkContent (t : List Char) (ht : t ≠ [])
    (htw : ∀ c ∈ t, isWs c = false) (n m : Nat) (cls : List Clause) :
    trimChars (mkContent t n m cls)
      = headerChars t n m ++ (cls.map (fun c => '\n' :: clauseLineChars c)).flatten := by
  rw [mkContent_shape]
  obtain ⟨c0, t', rfl⟩ : ∃ c0 t', t = c0 :: t' := by
    cases t with
    | nil => exact absurd rfl ht
    | cons a b => exact ⟨a, b, rfl⟩
  have hc0 : isWs c0 = false := htw c0 (List.mem_cons_self _ _)
  have hcons : ((headerChars (c0 :: t') n m
      ++ (cls.map (fun c => '\n' :: clauseLineChars c)).flatten) ++ ['\n'])
      = c0 :: ((t' ++ [' '] ++ "cnf".data ++ [' '] ++ natChars n ++ [' '] ++ natChars m
          ++ (cls.map (fun c => '\n' :: clauseLineChars c)).flatten) ++ ['\n']) := by
    simp [headerChars]
  rw [trimChars, hcons, trimLeft_cons _ hc0, ← hcons, trimRight_append_nl]
  cases hcl : cls with
  | nil =>
    obtain ⟨x, hx, d, _, hd⟩ := getLast?_headerChars (c0 :: t') n m
    simp only [List.map_nil, List.flatten_nil, List.append_nil]
    exact trimRight_no_ws_end hx (isWs_false_of_digit hd)
  | cons c2 cls2 =>
    have hlast0 : ((headerChars (c0 :: t') n m)
        ++ ((c2 :: cls2).map (fun c => '\n' :: clauseLineChars c)).flatten).getLast?
        = some '0' := by
      rw [List.getLast?_append, getLast?_flatten_lines _ (by simp)]
      rfl
    exact trimRight_no_ws_end hlast0 (by decide)

lemma rustLines_mkContent (t : List Char) (ht : t ≠ [])
    (htw : ∀ c ∈ t, isWs c = false) (n m : Nat) (cls : List Clause) :
    rustLines (trimChars (mkContent t n m cls))
      = headerChars t n m :: cls.map clauseLineChars := by
  rw [trimChars_mkContent t ht htw n m cls]
  have hhdr : '\n' ∉ headerChars t n m := not_nl_mem_headerChars t htw n m
  have hsplit := splitOnNl_flatten (headerChars t n m) (cls.map clauseLineChars)
    hhdr (by
      intro l hl
      obtain ⟨c, _, rfl⟩ := List.mem_map.mp hl
      exact not_nl_mem_clauseLineChars c)
  rw [show (cls.map clauseLineChars).map (fun l => '\n' :: l)
      = cls.map (fun c => '\n' :: clauseLineChars c) by rw [List.map_map]; rfl] at hsplit
  have hne : headerChars t n m
      ++ (cls.map (fun c => '\n' :: clauseLineChars c)).flatten ≠ [] := by
    intro he
    rcases List.append_eq_nil.mp he with ⟨h1, _⟩
    rw [headerChars] at h1
    rcases List.append_eq_nil.mp h1 with ⟨_, h2⟩
    exact natChars_ne_nil m h2
  have hlast : (headerChars t n m
      ++ (cls.map (fun c => '\n' :: clauseLineChars c)).flatten).getLast? ≠ some '\n' := by
    cases hcl : cls with
    | nil =>
      obtain ⟨x, hx, d, _, hd⟩ := getLast?_headerChars t n m
      rw [List.getLast?_append]
      simp only [List.map_nil, List.flatten_nil, List.getLast?_nil, Option.none_or, hx]
      intro he
      rw [Option.some.injEq] at he
      subst he
      rw [show digitVal? '\n' = none from by decide] at hd
      cases hd
    | cons c2 cls2 =>
      rw [List.getLast?_append, getLast?_flatten_lines _ (by simp)]
      simp
  simp only [rustLines, if_neg hne, if_neg hlast, hsplit]
  rw [List.map_cons]
  congr 1
  · obtain ⟨x, hx, d, _, hd⟩ := getLast?_headerChars t n m
    exact stripCr_no_cr hx (ne_of_digit hd (by decide))
  · have hall : ∀ l ∈ cls.map clauseLineChars, stripCr l = id l := by
      intro l hl
      obtain ⟨c, _, rfl⟩ := List.mem_map.mp hl
      exact stripCr_no_cr (getLast?_clauseLineChars c) (by decide)
    rw [List.map_congr_left hall, List.map_id]

/-! ## Parsing a written file back -/

lemma splitWs_headerChars (t : List Char) (ht : t ≠ [])
    (htw : ∀ c ∈ t, isWs c = false) (n m : Nat) :
    splitWs (headerChars t n m) = [t, "cnf".data, natChars n, natChars m] := by
  have hsh : t ++ [' '] ++ "cnf".data ++ [' '] ++ natChars n ++ [' '] ++ natChars m
      = t ++ ' ' :: ("cnf".data ++ ' ' :: (natChars n ++ ' ' :: natChars m)) := by
    simp
  rw [headerChars, hsh, splitWs_append_space _ _ ht htw,
    splitWs_append_space _ _ (by decide) (by decide),
    splitWs_append_space _ _ (natChars_ne_nil n) (mem_natChars_not_ws n),
    splitWs_single _ (natChars_ne_nil m) (mem_natChars_not_ws m)]

lemma splitWs_clauseLineChars (ls : List Literal) :
    splitWs ((ls.map (fun l => intChars l.cnf ++ [' '])).flatten ++ ['0'])
      = ls.map (fun l => intChars l.cnf) ++ [['0']] := by
  induction ls with
  | nil => simpa using splitWs_single ['0'] (by simp) (by decide)
  | cons l ls ih =>
    have hsh : ((intChars l.cnf ++ [' '])
          ++ (ls.map (fun l => intChars l.cnf ++ [' '])).flatten) ++ ['0']
        = intChars l.cnf
          ++ ' ' :: ((ls.map (fun l => intChars l.cnf ++ [' '])).flatten ++ ['0']) := by
      simp
    rw [List.map_cons, List.flatten_cons, hsh,
      splitWs_append_space _ _ (intChars_ne_nil _) (mem_intChars_not_ws _), ih]
    rfl

lemma parseClauseLine_clauseLineChars (c : Clause)
    (hb : ∀ l ∈ c.lits, 0 < l.cnf.natAbs ∧ l.cnf.natAbs ≤ isizeMaxNat) :
    parseClauseLine (clauseLineChars c) = some c := by
  rw [parseClauseLine, clauseLineChars, splitWs_clauseLineChars, List.map_append,
    List.map_map]
  have h1 : c.lits.map (parseIsize ∘ fun l => intChars l.cnf)
      = c.lits.map (fun l => some l.cnf) :=
    List.map_congr_left (fun l hl => parseIsize_intChars (hb l hl).2)
  have h2 : List.map parseIsize [['0']] = [some (0 : Int)] := by decide
  rw [h1, h2]
  have htake : ((c.lits.map (fun l => some l.cnf)) ++ [some (0 : Int)]).takeWhile
      (fun r => r.elim false (fun x => x != 0)) = c.lits.map (fun l => some l.cnf) := by
    refine takeWhile_all_append _ _ _ ?_ (by decide)
    intro x hx
    obtain ⟨l, hl, rfl⟩ := List.mem_map.mp hx
    have : l.cnf ≠ 0 := by
      have := (hb l hl).1
      omega
    simpa using this
  rw [htake]
  have hsome : c.lits.map (fun l => some l.cnf)
      = (c.lits.map Literal.cnf).map some := by
    rw [List.map_map]
    rfl
  rw [hsome, collectLits_map_some, List.map_map]
  have hid : (c.lits.map (Literal.from_cnf ∘ Literal.cnf)) = c.lits := by
    have : ∀ l ∈ c.lits, (Literal.from_cnf ∘ Literal.cnf) l = id l := fun l _ => rfl
    rw [List.map_congr_left this, List.map_id]
  rw [hid]
  rfl

/-- Master parsing lemma: a file consisting of a header line whose leading
token is `t` (nonempty, whitespace-free, not starting with `c`), declaring
`n` variables and `m` clauses, followed by the clause lines of `cls`
(at most `m` of them, every literal nonzero and representable), loads as the
all-false assignment of length `n` with exactly the clauses `cls`. -/
theorem from_file_mkContent (t : List Char) (ht : t ≠ [])
    (htw : ∀ c ∈ t, isWs c = false) (htc : t.head? ≠ some 'c')
    {n m : Nat} (hn : n ≤ usizeMax) (hm : m ≤ usizeMax)
    (cls : List Clause) (hlen : cls.length ≤ m)
    (hb : ∀ c ∈ cls, ∀ l ∈ c.lits, 0 < l.cnf.natAbs ∧ l.cnf.natAbs ≤ isizeMaxNat) :
    Instance.from_file (mkContent t n m cls)
      = some ⟨List.replicate n false, cls⟩ := by
  obtain ⟨c0, t', rfl⟩ : ∃ c0 t', t = c0 :: t' := by
    cases t with
    | nil => exact absurd rfl ht
    | cons a b => exact ⟨a, b, rfl⟩
  have hc0 : c0 ≠ 'c' := by simpa using htc
  have hhead : (headerChars (c0 :: t') n m).head? = some c0 := rfl
  have htakem : (cls.map clauseLineChars).take m = cls.map clauseLineChars :=
    List.take_of_length_le (by simpa using hlen)
  have hmap : (cls.map clauseLineChars).map parseClauseLine = cls.map some := by
    rw [List.map_map]
    exact List.map_congr_left
      (fun c hc => parseClauseLine_clauseLineChars c (hb c hc))
  simp only [Instance.from_file, rustLines_mkContent _ ht htw n m cls,
    List.dropWhile_cons, hhead, Option.some.injEq, hc0, decide_False,
    Bool.false_eq_true, if_false,
    splitWs_headerChars _ ht htw n m, List.drop_succ_cons, List.drop_zero,
    parseUsize_natChars hn, parseUsize_natChars hm, htakem, hmap,
    collectClauses_map_some, ite_not]
  exact if_pos trivial

/-! ## Evaluation-error propagation -/

lemma test_satGo_none_iff (vars : List Bool) (ls : List Literal) :
    Clause.test_satGo vars ls = none
      ↔ ∃ ps l rest, ls = ps ++ l :: rest ∧ l.eval_with vars = none
          ∧ ∀ x ∈ ps, x.eval_with vars = some false := by
  induction ls with
  | nil =>
    simp only [Clause.test_satGo]
    constructor
    · intro h
      cases h
    · rintro ⟨ps, l, rest, h, -, -⟩
      exact absurd h.symm (by simp)
  | cons a ls ih =>
    cases h : a.eval_with vars with
    | none =>
      simp only [Clause.test_satGo, h]
      constructor
      · intro _
        exact ⟨[], a, ls, rfl, h, by simp⟩
      · intro _
        trivial
    | some b =>
      cases b with
      | true =>
        simp only [Clause.test_satGo, h]
        constructor
        · intro hc
          cases hc
        · rintro ⟨ps, l, rest, hdec, hnone, hall⟩
          cases ps with
          | nil =>
            simp only [List.nil_append, List.cons.injEq] at hdec
            obtain ⟨rfl, rfl⟩ := hdec
            rw [h] at hnone
            cases hnone
          | cons p ps =>
            simp only [List.cons_append, List.cons.injEq] at hdec
            obtain ⟨rfl, -⟩ := hdec
            have hfalse := hall a (List.mem_cons_self _ _)
            rw [h] at hfalse
            simp at hfalse
      | false =>
        simp only [Clause.test_satGo, h]
        rw [ih]
        constructor
        · rintro ⟨ps, l, rest, rfl, hnone, hall⟩
          refine ⟨a :: ps, l, rest, rfl, hnone, ?_⟩
          intro x hx
          rcases List.mem_cons.mp hx with rfl | hx
          · exact h
          · exact hall x hx
        · rintro ⟨ps, l, rest, hdec, hnone, hall⟩
          cases ps with
          | nil =>
            simp only [List.nil_append, List.cons.injEq] at hdec
            obtain ⟨rfl, rfl⟩ := hdec
            rw [h] at hnone
            cases hnone
          | cons p ps =>
            simp only [List.cons_append, List.cons.injEq] at hdec
            obtain ⟨rfl, htl⟩ := hdec
            exact ⟨ps, l, rest, htl, hnone, fun x hx => hall x (List.mem_cons_of_mem _ hx)⟩

lemma count_satGo_none_iff (vars : List Bool) (cs : List Clause) :
    Instance.count_satGo vars cs = none ↔ ∃ c ∈ cs, c.test_sat vars = none := by
  induction cs with
  | nil => simp [Instance.count_satGo]
  | cons c cs ih =>
    cases h : c.test_sat vars with
    | none => simp [Instance.count_satGo, h]
    | some b =>
      cases b with
      | true => simp [Instance.count_satGo, h, ih, Option.map_eq_none']
      | false => simp [Instance.count_satGo, h, ih]

/-! ## The claims -/

/-- C1 (counterexample): the header of `"p cnf 3 2\n1 0"` declares `m = 2`
clauses but only one clause line follows; the claim says `from_file` must
fail, yet it succeeds and returns the one available clause. -/
theorem from_file_short_input_succeeds :
    Instance.from_file ("p cnf 3 2\n1 0".data)
      = some ⟨[false, false, false], [⟨[⟨1⟩]⟩]⟩ := by decide

/-- C1 (amended): when fewer clause lines than the declared `m` follow the
header, `from_file` does not fail: `lines.take(m)` simply stops at the end of
input and the Instance holds exactly the clauses that were present. -/
theorem from_file_reads_at_most_declared_clauses (n m : Nat)
    (hn : n ≤ usizeMax) (hm : m ≤ usizeMax) (cls : List Clause)
    (hlen : cls.length < m)
    (hb : ∀ c ∈ cls, ∀ l ∈ c.lits, 0 < l.cnf.natAbs ∧ l.cnf.natAbs ≤ isizeMaxNat) :
    Instance.from_file (mkContent ['p'] n m cls)
      = some ⟨List.replicate n false, cls⟩ :=
  from_file_mkContent ['p'] (by simp) (by decide) (by decide) hn hm cls
    (Nat.le_of_lt hlen) hb

/-- C1 (witness): a file declaring 2 clauses with a single clause line loads
as an Instance with that single clause. -/
theorem from_file_reads_at_most_declared_clauses_witness :
    Instance.from_file (mkContent ['p'] 3 2 [⟨[⟨1⟩]⟩])
      = some ⟨List.replicate 3 false, [⟨[⟨1⟩]⟩]⟩ :=
  from_file_reads_at_most_declared_clauses 3 2 (by decide) (by decide)
    [⟨[⟨1⟩]⟩] (by decide) (by decide)

/-- C2 (code bug): in the clause line `1 x 2 0` the token `x` fails to parse
before the `0` terminator, yet `from_file` succeeds and silently truncates
the clause to `(x0)`: `take_while(|r| r.as_ref().map_or(false, |x| *x != 0))`
consumes the `Err` without yielding it, so the
`collect::<Result<Clause, _>>()` / `map_err` error path never fires. -/
theorem from_file_bad_token_truncates_clause :
    Instance.from_file ("p cnf 2 1\n1 x 2 0".data)
      = some ⟨[false, false], [⟨[⟨1⟩]⟩]⟩ := by decide

/-- C3 (counterexample): the first line of `"q cnf 1 1\n1 0"` has leading
token `q`, not `p`; the claim says it must be rejected, yet `from_file`
accepts it (the leading header token is skipped unchecked). -/
theorem from_file_accepts_non_p_leading_token :
    Instance.from_file ("q cnf 1 1\n1 0".data)
      = some ⟨[false], [⟨[⟨1⟩]⟩]⟩ := by decide

/-- C3 (amended): `from_file` rejects a wrong problem type such as
`p wff 3 2` (the second header token must be `cnf`), but it never inspects
the leading token: any nonempty whitespace-free token not beginning with `c`
is accepted in place of `p`. -/
theorem from_file_header_checks_only_second_token :
    Instance.from_file ("p wff 3 2\n1 -2 0\n-1 3 0".data) = none
    ∧ (∀ (t : List Char), t ≠ [] → (∀ c ∈ t, isWs c = false) →
        t.head? ≠ some 'c' → ∀ (n m : Nat), n ≤ usizeMax → m ≤ usizeMax →
        ∀ (cls : List Clause), cls.length ≤ m →
        (∀ c ∈ cls, ∀ l ∈ c.lits, 0 < l.cnf.natAbs ∧ l.cnf.natAbs ≤ isizeMaxNat) →
        Instance.from_file (mkContent t n m cls)
          = some ⟨List.replicate n false, cls⟩) :=
  ⟨by decide, fun t ht htw htc n m hn hm cls hlen hb =>
    from_file_mkContent t ht htw htc hn hm cls hlen hb⟩

/-- C3 (witness): the header token `q` is accepted in place of `p`. -/
theorem from_file_header_checks_only_second_token_witness :
    Instance.from_file (mkContent ['q'] 1 1 [⟨[⟨1⟩]⟩])
      = some ⟨List.replicate 1 false, [⟨[⟨1⟩]⟩]⟩ :=
  from_file_header_checks_only_second_token.2 ['q'] (by decide) (by decide)
    (by decide) 1 1 (by decide) (by decide) [⟨[⟨1⟩]⟩] (by decide) (by decide)

/-- C4 (counterexample): at `index = isize::MAX - 1` (that is,
`MAX_MAGNITUDE - 1`, not strictly below it) the claim says `Literal::new`
panics, yet the assertion `var_index < isize::MAX` holds and the
construction succeeds — as the crate's own `new_max_index` test records. -/
theorem literal_new_succeeds_at_isize_max_sub_two :
    (Literal.new (2 ^ 63 - 2) false).isSome = true
      ∧ ¬ ((2 ^ 63 - 2 : Nat) < isizeMaxNat - 1) := by decide

/-- C4 (amended): `Literal::new(index, negated)` panics if and only if
`index` is not strictly less than `MAX_MAGNITUDE` itself (`isize::MAX`);
for every index strictly below `isize::MAX` it succeeds. -/
theorem literal_new_panics_iff_index_ge_max (idx : Nat) (neg : Bool)
    (_hidx : idx ≤ usizeMax) :
    Literal.new idx neg = none ↔ isizeMaxNat ≤ idx := by
  rw [Literal.new]
  split
  · next h =>
    constructor
    · intro hc
      cases hc
    · intro hge
      exact absurd hge (by omega)
  · next h =>
    constructor
    · intro _
      omega
    · intro _
      rfl

/-- C4 (witness): at `index = isize::MAX` the assertion fails. -/
theorem literal_new_panics_iff_index_ge_max_witness :
    Literal.new isizeMaxNat false = none :=
  (literal_new_panics_iff_index_ge_max isizeMaxNat false (by decide)).mpr
    (by decide)

/-- C5 (counterexample): the clause `(x0 ∨ x5)` against the length-1
assignment `[true]` contains the out-of-range literal `x5`
(`index = 5 ≥ 1`), yet `test_sat` returns the normal boolean `true`:
`Iterator::any` short-circuits at the satisfied first literal and the
out-of-range one is never evaluated. -/
theorem test_sat_ignores_out_of_range_after_true :
    Clause.test_sat ⟨[Literal.from_cnf 1, Literal.from_cnf 6]⟩ [true] = some true
      ∧ (Literal.from_cnf 6).index = some 5
      ∧ (Literal.from_cnf 6).try_eval_with [true] = some none := by decide

/-- C5 (amended): evaluating a clause signals a fatal error exactly when the
left-to-right scan reaches a literal whose evaluation is fatal (out of range
or invalid) before any literal that evaluates `true`; every literal before
that point must evaluate `false`. A satisfied literal earlier in the clause
short-circuits the scan and yields a normal boolean instead.
`count_sat` (and hence `is_sat`) is fatal exactly when some clause's
`test_sat` is. -/
theorem test_sat_and_count_sat_error_characterization :
    (∀ (c : Clause) (vars : List Bool),
      c.test_sat vars = none
        ↔ ∃ ps l rest, c.lits = ps ++ l :: rest ∧ l.eval_with vars = none
            ∧ ∀ x ∈ ps, x.eval_with vars = some false)
    ∧ (∀ inst : Instance,
        inst.count_sat = none ↔ ∃ c ∈ inst.clauses, c.test_sat inst.vars = none) :=
  ⟨fun c vars => test_satGo_none_iff vars c.lits,
    fun inst => count_satGo_none_iff inst.vars inst.clauses⟩

/-- C6 (counterexample): `from_raw_signed` accepts the nonzero value
`isize::MIN`, but negating that literal overflows (`-self.0` panics in a
debug build), so `l.negated().negated() == l` fails there rather than
holding for every nonzero raw value. -/
theorem double_negation_panics_at_isize_min :
    ((Literal.from_cnf isizeMin).negated.bind Literal.negated)
      ≠ some (Literal.from_cnf isizeMin) := by decide

/-- C6 (amended): for every literal whose raw value is nonzero, within the
`isize` range and different from `isize::MIN` (where negation overflows),
double negation is the identity. -/
theorem double_negation_identity_away_from_min (v : Int) (_hv0 : v ≠ 0)
    (hlo : isizeMin < v) (hhi : v ≤ isizeMax) :
    ((Literal.from_cnf v).negated.bind Literal.negated)
      = some (Literal.from_cnf v) := by
  have h1 : isizeMin = -(2 ^ 63) := rfl
  have h2 : isizeMax = 2 ^ 63 - 1 := rfl
  have hne1 : v ≠ isizeMin := by omega
  have hne2 : -v ≠ isizeMin := by omega
  simp only [Literal.from_cnf, Literal.negated, hne1, if_false, if_neg hne1,
    Option.some_bind, if_neg hne2, neg_neg]

/-- C6 (witness): double negation at the raw value 5. -/
theorem double_negation_identity_away_from_min_witness :
    ((Literal.from_cnf 5).negated.bind Literal.negated)
      = some (Literal.from_cnf 5) :=
  double_negation_identity_away_from_min 5 (by decide) (by decide) (by decide)

/-- C7: for every Instance built purely from in-bounds Literals (and with
`usize`-representable sizes, as in Rust), writing it with `to_file` and
reading the text back with `from_file` yields exactly the original clause
sequence together with an all-false assignment of the original length,
whatever assignment was saved. -/
theorem save_load_roundtrip (inst : Instance)
    (hvars : inst.vars.length ≤ usizeMax) (hcl : inst.clauses.length ≤ usizeMax)
    (hb : ∀ c ∈ inst.clauses, ∀ l ∈ c.lits, l.in_bounds inst.vars.length) :
    Instance.from_file inst.to_file
      = some ⟨List.replicate inst.vars.length false, inst.clauses⟩ := by
  rw [to_file_eq_mkContent]
  exact from_file_mkContent ['p'] (by simp) (by decide) (by decide) hvars hcl
    inst.clauses le_rfl
    (fun c hc l hl => ⟨(hb c hc l hl).1, (hb c hc l hl).2.1⟩)

/-- C7 (witness): the instance with assignment `[false, true]` and the one
clause `(x0 ∨ ¬x1)` round-trips to the same clause with the assignment reset
to all-false — the saved `true` bit is not preserved. -/
theorem save_load_roundtrip_witness :
    Instance.from_file (Instance.to_file ⟨[false, true], [⟨[⟨1⟩, ⟨-2⟩]⟩]⟩)
      = some ⟨List.replicate 2 false, [⟨[⟨1⟩, ⟨-2⟩]⟩]⟩ :=
  save_load_roundtrip ⟨[false, true], [⟨[⟨1⟩, ⟨-2⟩]⟩]⟩ (by decide) (by decide)
    (by decide)

/-- C8: loading `"p cnf 3 2\n1 -2 0\n-1 3 0"` yields three all-false
variables and the clauses `(x0 ∨ ¬x1)` and `(¬x0 ∨ x2)`; under the
assignment `[false, true, false]` the first clause is false, the second
true, one clause is satisfied and the instance is not; under
`[true, false, true]` both clauses are satisfied and the instance is. -/
theorem example_instance_scenarios :
    Instance.from_file ("p cnf 3 2\n1 -2 0\n-1 3 0".data)
      = some ⟨[false, false, false], [⟨[⟨1⟩, ⟨-2⟩]⟩, ⟨[⟨-1⟩, ⟨3⟩]⟩]⟩
    ∧ ((Literal.from_cnf 1).index = some 0 ∧ (Literal.from_cnf 1).is_negated = false)
    ∧ ((Literal.from_cnf (-2)).index = some 1 ∧ (Literal.from_cnf (-2)).is_negated = true)
    ∧ ((Literal.from_cnf (-1)).index = some 0 ∧ (Literal.from_cnf (-1)).is_negated = true)
    ∧ ((Literal.from_cnf 3).index = some 2 ∧ (Literal.from_cnf 3).is_negated = false)
    ∧ Clause.test_sat ⟨[⟨1⟩, ⟨-2⟩]⟩ [false, true, false] = some false
    ∧ Clause.test_sat ⟨[⟨-1⟩, ⟨3⟩]⟩ [false, true, false] = some true
    ∧ Instance.count_sat ⟨[false, true, false], [⟨[⟨1⟩, ⟨-2⟩]⟩, ⟨[⟨-1⟩, ⟨3⟩]⟩]⟩ = some 1
    ∧ Instance.is_sat ⟨[false, true, false], [⟨[⟨1⟩, ⟨-2⟩]⟩, ⟨[⟨-1⟩, ⟨3⟩]⟩]⟩ = some false
    ∧ Clause.test_sat ⟨[⟨1⟩, ⟨-2⟩]⟩ [true, false, true] = some true
    ∧ Clause.test_sat ⟨[⟨-1⟩, ⟨3⟩]⟩ [true, false, true] = some true
    ∧ Instance.is_sat ⟨[true, false, true], [⟨[⟨1⟩, ⟨-2⟩]⟩, ⟨[⟨-1⟩, ⟨3⟩]⟩]⟩ = some true := by
  decide

/-- C9: `sample_new_variables_with` leaves the clause sequence unchanged,
replaces the assignment vector by one of exactly the same length, and
returns (a reference to) the new assignment vector. -/
theorem sample_new_variables_frame (inst : Instance) (rng : Nat → Bool) :
    (inst.sample_new_variables_with rng).1.clauses = inst.clauses
    ∧ (inst.sample_new_variables_with rng).1.vars.length = inst.vars.length
    ∧ (inst.sample_new_variables_with rng).2
        = (inst.sample_new_variables_with rng).1.vars := by
  refine ⟨rfl, ?_, rfl⟩
  simp [Instance.sample_new_variables_with]

/-- C10: `from_cnf` performs no validation and accepts the raw value `0`;
on the resulting literal the `|0| - 1` index computation underflows, so
`index`, `try_eval_with` and `eval_with` are all fatal (debug panic) for
every assignment, instead of returning a value. -/
theorem from_cnf_zero_is_fatal (vars : List Bool) :
    Literal.from_cnf 0 = ⟨0⟩
    ∧ (Literal.from_cnf 0).index = none
    ∧ (Literal.from_cnf 0).try_eval_with vars = none
    ∧ (Literal.from_cnf 0).eval_with vars = none := by
  have hidx : (Literal.from_cnf 0).index = none := by decide
  refine ⟨rfl, hidx, ?_, ?_⟩
  · rw [Literal.try_eval_with, hidx]
    rfl
  · rw [Literal.eval_with, Literal.try_eval_with, hidx]
    rfl

end SatLab
